import Mathlib

/-!
# Verification of the mssh execution orchestrator

A shallow embedding of the mssh source (src/cli.rs, src/ssh.rs, src/run.rs,
src/main.rs) together with proofs about the embedded definitions.

Modelling conventions:
* Rust strings are Lean `String`s; character-level splitting works on
  `String.data` (`List Char`), matching Rust `str::split(char)` semantics.
* Machine integers (`u16`, `u64`, `usize`) are `Nat` with explicit range
  checks where the source performs them (`u16` parsing).
* Fallible Rust functions returning `Result<T, E>` become `Except`-valued
  Lean functions, with error payloads kept as the `String` the source
  produces via `to_string()`.
* The SSH transport is opaque in the source's core; it is represented by
  oracles recording, for each host, the outcome of `connect`, of the i-th
  `call`, and of `close`.
-/

/-! ## Data model (src/main.rs, src/cli.rs) -/

/-- `RemoteHost` from src/cli.rs: connection target plus execution identity. -/
structure RemoteHost where
  host : String
  «sudo» : Option String
  username : String
  port : Nat
  deriving Repr, DecidableEq

/-- `Response` from src/main.rs: result of one successful command. -/
structure Response where
  index : Nat
  out : String
  err : String
  code : Option Nat
  duration : Nat
  deriving Repr, DecidableEq

/-- `RunError` from src/main.rs. -/
inductive RunError where
  | GeneralError (msg : String)
  | SshConnectionError (msg : String)
  | SshRunError (msg : String) (index : Nat)
  | SshCloseError (msg : String)
  deriving Repr, DecidableEq

/-- `RunResult<T> = Result<T, RunError>` from src/main.rs. -/
abbrev RunResult (α : Type) := Except RunError α

/-- `Responses` from src/main.rs: one host's complete outcome record. -/
structure Responses where
  remote_host : RemoteHost
  responses : List (RunResult Response)
  deriving Repr

/-! ## Host-spec parsing (src/cli.rs) -/

/-- Rust `str::split(sep)` on the character list of a string: always returns at
least one (possibly empty) segment, and an empty trailing segment after a
trailing separator. -/
def splitOnChar (sep : Char) : List Char → List (List Char)
  | [] => [[]]
  | c :: rest =>
    let r := splitOnChar sep rest
    if c = sep then [] :: r
    else
      match r with
      | [] => [[c]]
      | g :: gs => (c :: g) :: gs

/-- `parse_users` from src/cli.rs: split on `'@'`, drop the final segment,
keep the rest as the user segments. -/
def parse_users (s : String) : List String :=
  ((splitOnChar '@' s.data).dropLast).map (fun cs => String.mk cs)

/-- Rust `u16::from_str`: optional leading `'+'`, then one or more ASCII
digits, value at most 65535. -/
def parseU16 (s : List Char) : Option Nat :=
  let t := match s with
    | '+' :: rest => rest
    | _ => s
  if t.isEmpty then none
  else if t.all (fun c => c.isDigit) then
    let v := t.foldl (fun acc c => acc * 10 + (c.toNat - 48)) 0
    if v ≤ 65535 then some v else none
  else none

/-- `parse_host_login` from src/cli.rs.  `env_user` models
`std::env::var("USER")` (`none` = variable absent, surfacing as an error when
consulted). -/
def parse_host_login (env_user : Option String) (host_login : String) :
    Except String RemoteHost := do
  let (username, «sudo») ←
    match parse_users host_login with
    | [username] => Except.ok (username, (none : Option String))
    | [username, s] => Except.ok (username, some s)
    | [] =>
      match env_user with
      | some u => Except.ok (u, (none : Option String))
      | none => Except.error "environment variable not found"
    | _ => Except.error "Invalid user name"
  let host_string ←
    match (splitOnChar '@' host_login.data).getLast? with
    | some s => Except.ok s
    | none => Except.error "No host provided"
  let parts := splitOnChar ':' host_string
  let (host, port) ←
    match parts with
    | [host] => Except.ok (host, 22)
    | [host, port] =>
      match parseU16 port with
      | some p => Except.ok (host, p)
      | none => Except.error "invalid digit found in string"
    | _ => Except.error "Invalid host"
  if host.isEmpty then Except.error "Invalid host"
  else Except.ok { host := String.mk host, «sudo» := «sudo», username := username, port := port }

/-! ## Privilege-escalation command rewriting (src/ssh.rs, `Session::call`) -/

/-- The command string `Session::call` hands to `channel.exec`, as a function
of the requested command, the escalation target and the escalation password
(src/ssh.rs lines 72–84). -/
def dispatchedCommand (command : String) («sudo» : Option String)
    (sudo_password : Option String) : String :=
  match «sudo», sudo_password with
  | some u, some pass => "echo " ++ pass ++ " | sudo -u " ++ u ++ " -S  " ++ command
  | some u, none => "sudo -u " ++ u ++ " " ++ command
  | none, _ => command

/-! ## Session connection (src/ssh.rs, `Session::connect`) -/

/-- A live authenticated connection handle (the `Session` struct of
src/ssh.rs, with the opaque `client::Handle` abstracted away). -/
inductive Session where
  | live
  deriving Repr, DecidableEq

/-- One possible behaviour of the transport during `Session::connect`:
how long the TCP/SSH handshake (`client::connect`) takes and whether it
succeeds, and how long `authenticate_publickey` takes and what it returns
(`Except.ok b` is Rust `Ok(b)`, `Except.error` a transport error). -/
structure ConnectEnv where
  handshakeMillis : Nat
  handshakeResult : Except String Unit
  authMillis : Nat
  authResult : Except String Bool
  deriving Repr

/-- The connect timeout of src/ssh.rs line 48, in milliseconds. -/
def connectTimeoutMillis : Nat := 5000

/-- `Session::connect` from src/ssh.rs lines 36–61: `tokio::time::timeout`
is applied to `client::connect` alone, after which `authenticate_publickey`
is awaited with no timeout; a `false` authentication answer becomes the
`"Authentication failed"` error. -/
def Session.connect (env : ConnectEnv) : Except String Session :=
  if connectTimeoutMillis < env.handshakeMillis then Except.error "deadline has elapsed"
  else
    match env.handshakeResult with
    | Except.error e => Except.error e
    | Except.ok _ =>
      match env.authResult with
      | Except.error e => Except.error e
      | Except.ok true => Except.ok Session.live
      | Except.ok false => Except.error "Authentication failed"

/-- Total wall-clock time spent inside `Session::connect` when it returns a
session: handshake plus authentication. -/
def ConnectEnv.totalMillis (env : ConnectEnv) : Nat :=
  env.handshakeMillis + env.authMillis

/-! ## Per-host execution (src/run.rs, spawned task body, lines 19–58) -/

/-- One host's transport behaviour after a successful connect: the outcome of
the `i`-th `ssh.call(command, ..)` (stdout, stderr, exit code, duration on
success; an error string on failure) and the outcome of `ssh.close()`. -/
structure SessionOracle where
  callAt : Nat → String → Except String (String × String × Option Nat × Nat)
  closeResult : Except String Unit

/-- One host's full transport behaviour: the outcome of `ssh::connect` and,
when it succeeds, the session's oracle. -/
structure HostBehavior where
  connectResult : Except String SessionOracle

/-- The command loop of the spawned task (src/run.rs lines 33–51): run the
commands in order from index `i`, pushing `Ok(Response)` on success and
stopping with `Err(SshRunError(e, i))` at the first failure. -/
def runCommands (ssh : SessionOracle) : Nat → List String → List (RunResult Response)
  | _, [] => []
  | i, command :: rest =>
    match ssh.callAt i command with
    | Except.ok (out, err, code, duration) =>
      Except.ok ⟨i, out, err, code, duration⟩ :: runCommands ssh (i + 1) rest
    | Except.error e => [Except.error (RunError.SshRunError e i)]

/-- The whole spawned task body (src/run.rs lines 19–58): connect, run the
command loop, always close on the connected path, appending an
`SshCloseError` outcome when close fails. -/
def hostTask (behavior : HostBehavior) (remote_host : RemoteHost)
    (commands : List String) : RemoteHost × RunResult (List (RunResult Response)) :=
  match behavior.connectResult with
  | Except.error e => (remote_host, Except.error (RunError.SshConnectionError e))
  | Except.ok ssh =>
    let responses := runCommands ssh 0 commands
    match ssh.closeResult with
    | Except.error e =>
      (remote_host, Except.ok (responses ++ [Except.error (RunError.SshCloseError e)]))
    | Except.ok _ => (remote_host, Except.ok responses)

/-- Number of times the task body reaches the `ssh.close()` call: the
connect-failure arm returns before it, the connected arm runs it once. -/
def closeAttempts (behavior : HostBehavior) : Nat :=
  match behavior.connectResult with
  | Except.error _ => 0
  | Except.ok _ => 1

/-! ## Collection and ordering (src/run.rs lines 62–102, src/main.rs 129–130) -/

/-- The index a response is sorted by in src/run.rs lines 68–78: `Ok`
responses and `SshRunError`s carry a command index, connection and close
errors do not. -/
def responseIndex : RunResult Response → Option Nat
  | Except.ok r => some r.index
  | Except.error (RunError.SshRunError _ i) => some i
  | _ => none

/-- The comparator passed to `sort_by` in src/run.rs lines 68–84. -/
def respCmp (a b : RunResult Response) : Ordering :=
  match responseIndex a, responseIndex b with
  | some i, some j => compare i j
  | _, _ => Ordering.eq

/-- `a` may precede `b` under the comparator (it does not compare greater). -/
def respLe (a b : RunResult Response) : Prop := respCmp a b ≠ Ordering.gt

instance : DecidableRel respLe :=
  fun a b => inferInstanceAs (Decidable (respCmp a b ≠ Ordering.gt))

/-- `responses.sort_by(..)` of src/run.rs line 68, modelled as a stable
insertion sort under the comparator's "not greater" relation. -/
def sortResponses (l : List (RunResult Response)) : List (RunResult Response) :=
  List.insertionSort respLe l

/-- The result of awaiting one spawned task: `Ok` with the task's value, or a
`JoinError` (panic / cancellation) carrying its rendered message. -/
inductive JoinResult (α : Type) where
  | ok (value : α)
  | joinFailure (msg : String)

/-- What one spawned host task hands back through the stream. -/
abbrev HostTaskOutput := RemoteHost × RunResult (List (RunResult Response))

/-- The collection loop of `run` (src/run.rs lines 62–102), applied to the
stream's arrivals in completion order: a per-host `Ok` payload is sorted and
pushed, a per-host connection error becomes a single-outcome record, and a
failed join makes the whole function return `Err(GeneralError)`. -/
def collect : List (JoinResult HostTaskOutput) → RunResult (List Responses)
  | [] => Except.ok []
  | JoinResult.joinFailure msg :: _ => Except.error (RunError.GeneralError msg)
  | JoinResult.ok (remote_host, Except.ok responses) :: rest =>
    match collect rest with
    | Except.ok ret => Except.ok (⟨remote_host, sortResponses responses⟩ :: ret)
    | Except.error e => Except.error e
  | JoinResult.ok (remote_host, Except.error e) :: rest =>
    match collect rest with
    | Except.ok ret => Except.ok (⟨remote_host, [Except.error e]⟩ :: ret)
    | Except.error e' => Except.error e'

/-- Hostname order used by `main` (src/main.rs line 130). -/
def hostLe (a b : Responses) : Prop := a.remote_host.host ≤ b.remote_host.host

instance : DecidableRel hostLe :=
  fun a b => inferInstanceAs (Decidable (a.remote_host.host ≤ b.remote_host.host))

instance : IsTotal Responses hostLe :=
  ⟨fun a b => le_total a.remote_host.host b.remote_host.host⟩

instance : IsTrans Responses hostLe :=
  ⟨fun _ _ _ hab hbc => le_trans hab hbc⟩

/-- `all_responses.sort_by(|a, b| a.remote_host.host.cmp(..))` of
src/main.rs line 130, modelled as a stable insertion sort. -/
def aggregate (l : List Responses) : List Responses :=
  List.insertionSort hostLe l

/-- What `main` holds after `run(args).await?` followed by the hostname sort
(src/main.rs lines 129–130), as a function of the stream arrivals. -/
def mainOutput (joins : List (JoinResult HostTaskOutput)) : RunResult (List Responses) :=
  match collect joins with
  | Except.ok all_responses => Except.ok (aggregate all_responses)
  | Except.error e => Except.error e

/-! ## Bounded-concurrency scheduling (src/run.rs lines 14–60) -/

/-- The cap passed to `buffer_unordered` in src/run.rs line 60. -/
def bufferCap : Nat := 10

/-- The scheduling state of the buffered stream: hosts not yet started (in
submission order), units currently in flight, and units already collected. -/
structure BufferState (α : Type) where
  pending : List α
  active : List α
  finished : List α

/-- The scheduling discipline of `stream::iter(..).map(spawn ..)
.buffer_unordered(bufferCap)`: the next queued unit may start only while
fewer than `bufferCap` units are in flight, and any in-flight unit may finish
(completion order is unconstrained). -/
inductive BufferStep {α : Type} : BufferState α → BufferState α → Prop where
  | start (x : α) (rest active finished : List α)
      (h : active.length < bufferCap) :
      BufferStep ⟨x :: rest, active, finished⟩ ⟨rest, x :: active, finished⟩
  | finish (pending a₁ : List α) (x : α) (a₂ finished : List α) :
      BufferStep ⟨pending, a₁ ++ x :: a₂, finished⟩ ⟨pending, a₁ ++ a₂, x :: finished⟩

/-- States the buffered stream can be in while draining the given host list. -/
def BufferReachable {α : Type} (hosts : List α) (s : BufferState α) : Prop :=
  Relation.ReflTransGen BufferStep ⟨hosts, [], []⟩ s

/-! ## Concrete transport behaviours used to exhibit the theorems -/

/-- A host used in concrete instantiations. -/
def demoHost : RemoteHost := ⟨"example.com", none, "alice", 22⟩

/-- A session whose every command succeeds and whose close succeeds. -/
def okOracle : SessionOracle :=
  ⟨fun _ _ => Except.ok ("ok", "", some 0, 5), Except.ok ()⟩

/-- A session whose every command succeeds but whose close fails. -/
def closeFailOracle : SessionOracle :=
  ⟨fun _ _ => Except.ok ("ok", "", some 0, 5), Except.error "disconnected"⟩

/-- A session whose command at index 1 fails and whose close succeeds. -/
def failAt1Oracle : SessionOracle :=
  ⟨fun i _ => if i = 1 then Except.error "boom" else Except.ok ("ok", "", some 0, 5),
   Except.ok ()⟩

/-! ## Theorems: session connection -/

/-- Claim C2 as stated is false: the 5-second bound does not cover the
authentication step.  A behaviour whose handshake is instantaneous but whose
public-key authentication takes 60 seconds still yields a `Session`, with the
total connect time far beyond the bound. -/
theorem connect_timeout_not_covering_auth :
    Session.connect ⟨0, Except.ok (), 60000, Except.ok true⟩ = Except.ok Session.live ∧
    5000 < ConnectEnv.totalMillis ⟨0, Except.ok (), 60000, Except.ok true⟩ := by
  exact ⟨rfl, by decide⟩

/-- Claim C2, amended: the 5-second timeout bounds only the transport
handshake — `Session.connect` returns a session exactly when the handshake
finishes within 5 seconds and succeeds and public-key authentication answers
`true` (authentication itself is unbounded); in every other case, including
authentication failure, a connection-level error is returned instead of a
session. -/
theorem connect_ok_iff :
    ∀ env : ConnectEnv, Session.connect env = Except.ok Session.live ↔
      env.handshakeMillis ≤ connectTimeoutMillis ∧
      env.handshakeResult = Except.ok () ∧
      env.authResult = Except.ok true := by
  intro env
  obtain ⟨hm, hr, am, ar⟩ := env
  unfold Session.connect
  dsimp only
  split
  · constructor
    · intro h; exact absurd h (by simp)
    · rintro ⟨h1, -, -⟩; omega
  · rename_i hle
    cases hr with
    | error e => simp
    | ok u =>
      cases u
      cases ar with
      | error e => simp
      | ok b =>
        cases b
        · simp
        · simpa using by omega

/-! ## Structural lemmas about the command loop -/

theorem runCommands_getElem_index (o : SessionOracle) :
    ∀ (cmds : List String) (s j : Nat) (x : RunResult Response),
      (runCommands o s cmds)[j]? = some x → responseIndex x = some (s + j) := by
  intro cmds
  induction cmds with
  | nil => intro s j x hx; simp [runCommands] at hx
  | cons c rest ih =>
    intro s j x hx
    rcases hc : o.callAt s c with e | v
    · have hrw : runCommands o s (c :: rest) = [Except.error (RunError.SshRunError e s)] := by
        simp [runCommands, hc]
      rw [hrw] at hx
      cases j with
      | zero =>
        simp only [List.getElem?_cons_zero, Option.some.injEq] at hx
        subst hx
        simp [responseIndex]
      | succ j => simp at hx
    · obtain ⟨out, err, code, duration⟩ := v
      have hrw : runCommands o s (c :: rest) =
          Except.ok ⟨s, out, err, code, duration⟩ :: runCommands o (s + 1) rest := by
        simp [runCommands, hc]
      rw [hrw] at hx
      cases j with
      | zero =>
        simp only [List.getElem?_cons_zero, Option.some.injEq] at hx
        subst hx
        simp [responseIndex]
      | succ j =>
        rw [List.getElem?_cons_succ] at hx
        rw [ih (s + 1) j x hx]
        congr 1
        omega

theorem runCommands_filterMap_index (o : SessionOracle) :
    ∀ (cmds : List String) (s : Nat),
      (runCommands o s cmds).filterMap responseIndex =
        List.range' s (runCommands o s cmds).length := by
  intro cmds
  induction cmds with
  | nil => intro s; simp [runCommands]
  | cons c rest ih =>
    intro s
    rcases hc : o.callAt s c with e | v
    · simp [runCommands, hc, responseIndex, List.range']
    · obtain ⟨out, err, code, duration⟩ := v
      simp only [runCommands, hc, List.filterMap_cons, responseIndex, List.length_cons]
      rw [ih (s + 1), List.range'_succ]

theorem sorted_lt_range' : ∀ (n s : Nat), List.Sorted (· < ·) (List.range' s n) := by
  intro n
  induction n with
  | zero => intro s; simp
  | succ n ih =>
    intro s
    rw [List.range'_succ]
    refine List.sorted_cons.mpr ⟨?_, ih (s + 1)⟩
    intro b hb
    have := (List.mem_range'_1).mp hb
    omega

theorem runCommands_all_ok_length (o : SessionOracle) :
    ∀ (cmds : List String) (s : Nat),
      (∀ i, i < cmds.length → (o.callAt (s + i) (cmds.getD i "")).isOk = true) →
      (runCommands o s cmds).length = cmds.length := by
  intro cmds
  induction cmds with
  | nil => intro s _; simp [runCommands]
  | cons c rest ih =>
    intro s hok
    have h0 := hok 0 (Nat.succ_pos _)
    rcases hc : o.callAt s c with e | v
    · rw [show s + 0 = s by omega] at h0
      simp [List.getD_cons_zero, hc, Except.isOk, Except.toBool] at h0
    · obtain ⟨out, err, code, duration⟩ := v
      have hrest : ∀ i, i < rest.length →
          (o.callAt (s + 1 + i) (rest.getD i "")).isOk = true := by
        intro i hi
        have := hok (i + 1) (Nat.succ_lt_succ hi)
        rwa [List.getD_cons_succ, show s + (i + 1) = s + 1 + i by omega] at this
      simp [runCommands, hc, ih (s + 1) hrest]

theorem runCommands_stop (o : SessionOracle) :
    ∀ (cmds : List String) (s K : Nat), K < cmds.length →
      (∀ i, i < K → (o.callAt (s + i) (cmds.getD i "")).isOk = true) →
      (o.callAt (s + K) (cmds.getD K "")).isOk = false →
      (runCommands o s cmds).length = K + 1 ∧
      (∀ j, j < K → ∃ r, (runCommands o s cmds)[j]? = some (Except.ok r) ∧
        r.index = s + j) ∧
      (∃ m, (runCommands o s cmds)[K]? =
        some (Except.error (RunError.SshRunError m (s + K)))) := by
  intro cmds
  induction cmds with
  | nil => intro s K hK; simp at hK
  | cons c rest ih =>
    intro s K hK hok herr
    cases K with
    | zero =>
      rw [show s + 0 = s by omega, List.getD_cons_zero] at herr
      rcases hc : o.callAt s c with e | v
      · refine ⟨by simp [runCommands, hc], by omega, e, ?_⟩
        simp [runCommands, hc]
      · rw [hc] at herr; simp [Except.isOk, Except.toBool] at herr
    | succ K =>
      have h0 := hok 0 (Nat.succ_pos _)
      rw [show s + 0 = s by omega, List.getD_cons_zero] at h0
      rcases hc : o.callAt s c with e | v
      · rw [hc] at h0; simp [Except.isOk, Except.toBool] at h0
      · obtain ⟨out, err, code, duration⟩ := v
        have hok' : ∀ i, i < K → (o.callAt (s + 1 + i) (rest.getD i "")).isOk = true := by
          intro i hi
          have := hok (i + 1) (Nat.succ_lt_succ hi)
          rwa [List.getD_cons_succ, show s + (i + 1) = s + 1 + i by omega] at this
        have herr' : (o.callAt (s + 1 + K) (rest.getD K "")).isOk = false := by
          rwa [List.getD_cons_succ, show s + (K + 1) = s + 1 + K by omega] at herr
        obtain ⟨hlen, hmid, m, hlast⟩ :=
          ih (s + 1) K (Nat.lt_of_succ_lt_succ hK) hok' herr'
        have hrw : runCommands o s (c :: rest) =
            Except.ok ⟨s, out, err, code, duration⟩ :: runCommands o (s + 1) rest := by
          simp [runCommands, hc]
        refine ⟨by simp [hrw, hlen], ?_, m, ?_⟩
        · intro j hj
          cases j with
          | zero => exact ⟨⟨s, out, err, code, duration⟩, by simp [hrw], by simp⟩
          | succ j =>
            obtain ⟨r, hr, hidx⟩ := hmid j (Nat.lt_of_succ_lt_succ hj)
            exact ⟨r, by simp [hrw, hr], by omega⟩
        · rw [hrw]
          simp only [List.getElem?_cons_succ]
          rw [hlast]
          congr 3
          omega

/-! ## Theorems: per-host command sequencing -/

/-- Claim C3: for a host whose connection succeeds and whose `K`-th command
(zero-based) fails, the outcome sequence carries command indices exactly
`0..K` — positions `0..K-1` are successes with matching indices, position `K`
is the run error with index `K` — and no outcome for any later command
exists. -/
theorem host_outcomes_stop_at_first_failure
    (o : SessionOracle) (rh : RemoteHost) (cmds : List String) (K : Nat)
    (hK : K < cmds.length)
    (hok : ∀ i, i < K → (o.callAt i (cmds.getD i "")).isOk = true)
    (herr : (o.callAt K (cmds.getD K "")).isOk = false) :
    ∃ l, (hostTask ⟨Except.ok o⟩ rh cmds).2 = Except.ok l ∧
      l.filterMap responseIndex = List.range (K + 1) ∧
      (∀ j, j < K → ∃ r, l[j]? = some (Except.ok r) ∧ r.index = j) ∧
      (∃ m, l[K]? = some (Except.error (RunError.SshRunError m K))) := by
  have hok0 : ∀ i, i < K → (o.callAt (0 + i) (cmds.getD i "")).isOk = true := by
    intro i hi; rw [show (0 : Nat) + i = i by omega]; exact hok i hi
  have herr0 : (o.callAt (0 + K) (cmds.getD K "")).isOk = false := by
    rwa [show (0 : Nat) + K = K by omega]
  obtain ⟨hlen, hmid, m, hlast⟩ := runCommands_stop o cmds 0 K hK hok0 herr0
  have hfm : (runCommands o 0 cmds).filterMap responseIndex = List.range (K + 1) := by
    rw [runCommands_filterMap_index o cmds 0, hlen, List.range_eq_range']
  have hmid' : ∀ j, j < K → ∃ r, (runCommands o 0 cmds)[j]? = some (Except.ok r) ∧
      r.index = j := by
    intro j hj
    obtain ⟨r, hr, hidx⟩ := hmid j hj
    exact ⟨r, hr, by omega⟩
  have hlast' : (runCommands o 0 cmds)[K]? =
      some (Except.error (RunError.SshRunError m (0 + K))) := hlast
  rw [show (0 : Nat) + K = K by omega] at hlast'
  unfold hostTask
  dsimp only
  rcases hcl : o.closeResult with e | u
  · refine ⟨runCommands o 0 cmds ++ [Except.error (RunError.SshCloseError e)], rfl, ?_, ?_, m, ?_⟩
    · rw [List.filterMap_append, hfm]
      simp [responseIndex]
    · intro j hj
      obtain ⟨r, hr, hidx⟩ := hmid' j hj
      refine ⟨r, ?_, hidx⟩
      rw [List.getElem?_append_left (by omega), hr]
    · rw [List.getElem?_append_left (by omega), hlast']
  · exact ⟨runCommands o 0 cmds, rfl, hfm, hmid', m, hlast'⟩

/-! ## Theorems: host-spec parsing -/

/-- Claim C8: `"alice@example.com"` parses to username `alice`, no sudo user,
host `example.com`, port 22; `"alice@root@example.com:2222"` parses to
username `alice`, sudo user `root`, host `example.com`, port 2222;
`"example.com"` parses with the username defaulting to the invoking process's
identity and port 22; `"a@b@c@host"` is a parse error; `"user@"` is a parse
error because the host is empty. -/
theorem parse_host_login_spec_examples :
    (∀ env, parse_host_login env "alice@example.com" =
      Except.ok ⟨"example.com", none, "alice", 22⟩) ∧
    (∀ env, parse_host_login env "alice@root@example.com:2222" =
      Except.ok ⟨"example.com", some "root", "alice", 2222⟩) ∧
    (∀ u, parse_host_login (some u) "example.com" =
      Except.ok ⟨"example.com", none, u, 22⟩) ∧
    (∀ env, parse_host_login env "a@b@c@host" = Except.error "Invalid user name") ∧
    (∀ env, parse_host_login env "user@" = Except.error "Invalid host") :=
  ⟨fun _ => rfl, fun _ => rfl, fun _ => rfl, fun _ => rfl, fun _ => rfl⟩

/-- Claim C10: `"@host"` (an `'@'` separator with an empty user part) parses
successfully to the empty username, no sudo user, host `host`, port 22 —
emptiness is validated only for the host segment, never for the user
segment, and the invoker-identity fallback is not consulted. -/
theorem parse_host_login_empty_user :
    ∀ env, parse_host_login env "@host" = Except.ok ⟨"host", none, "", 22⟩ :=
  fun _ => rfl

/-! ## Theorems: privilege-escalation rewriting -/

/-- Claim C9: with an escalation target `u` and no password, the dispatched
command is `sudo -u u c`; with a password `p` it is
`echo p | sudo -u u -S  c`; with no target the command is dispatched
unchanged. -/
theorem dispatchedCommand_spec :
    (∀ c u, dispatchedCommand c (some u) none = "sudo -u " ++ u ++ " " ++ c) ∧
    (∀ c u p, dispatchedCommand c (some u) (some p) =
      "echo " ++ p ++ " | sudo -u " ++ u ++ " -S  " ++ c) ∧
    (∀ c p, dispatchedCommand c none p = c) :=
  ⟨fun _ _ => rfl, fun _ _ _ => rfl, fun _ _ => rfl⟩

/-! ## Theorems: close discipline -/

theorem host_outcomes_stop_witness :
    1 < (["echo a", "echo b", "echo c"] : List String).length ∧
    ∃ l, (hostTask ⟨Except.ok failAt1Oracle⟩ demoHost ["echo a", "echo b", "echo c"]).2 =
        Except.ok l ∧
      l.filterMap responseIndex = List.range 2 ∧
      (∀ j, j < 1 → ∃ r, l[j]? = some (Except.ok r) ∧ r.index = j) ∧
      (∃ m, l[1]? = some (Except.error (RunError.SshRunError m 1))) :=
  ⟨by decide,
   host_outcomes_stop_at_first_failure failAt1Oracle demoHost ["echo a", "echo b", "echo c"] 1
     (by decide) (by decide) (by decide)⟩

/-- Claim C4: on connection failure close is never attempted and the outcome
sequence is the single connection error; on connection success close is
attempted exactly once whatever the commands did, a failing close appends one
unindexed outcome after all command outcomes, and a successful 3-command run
followed by a close failure yields exactly 4 outcomes with the close error
last. -/
theorem close_always_attempted_once
    (rh : RemoteHost) (cmds : List String) (o_fine o_bad : SessionOracle)
    (e_conn e_close : String)
    (hfine : o_fine.closeResult = Except.ok ())
    (hbad : o_bad.closeResult = Except.error e_close) :
    closeAttempts ⟨Except.error e_conn⟩ = 0 ∧
    hostTask ⟨Except.error e_conn⟩ rh cmds =
      (rh, Except.error (RunError.SshConnectionError e_conn)) ∧
    closeAttempts ⟨Except.ok o_fine⟩ = 1 ∧
    closeAttempts ⟨Except.ok o_bad⟩ = 1 ∧
    (hostTask ⟨Except.ok o_fine⟩ rh cmds).2 = Except.ok (runCommands o_fine 0 cmds) ∧
    (hostTask ⟨Except.ok o_bad⟩ rh cmds).2 =
      Except.ok (runCommands o_bad 0 cmds ++
        [Except.error (RunError.SshCloseError e_close)]) ∧
    responseIndex (Except.error (RunError.SshCloseError e_close)) = none ∧
    (cmds.length = 3 →
      (∀ i, i < 3 → (o_bad.callAt i (cmds.getD i "")).isOk = true) →
      ∃ l, (hostTask ⟨Except.ok o_bad⟩ rh cmds).2 = Except.ok l ∧ l.length = 4 ∧
        l.getLast? = some (Except.error (RunError.SshCloseError e_close))) := by
  refine ⟨rfl, rfl, rfl, rfl, ?_, ?_, rfl, ?_⟩
  · simp [hostTask, hfine]
  · simp [hostTask, hbad]
  · intro hlen hok
    refine ⟨runCommands o_bad 0 cmds ++ [Except.error (RunError.SshCloseError e_close)],
      by simp [hostTask, hbad], ?_, List.getLast?_concat _⟩
    have hok0 : ∀ i, i < cmds.length →
        (o_bad.callAt (0 + i) (cmds.getD i "")).isOk = true := by
      intro i hi
      rw [show (0 : Nat) + i = i by omega]
      exact hok i (by omega)
    rw [List.length_append, runCommands_all_ok_length o_bad cmds 0 hok0, hlen]
    rfl

theorem close_always_attempted_once_witness :
    closeAttempts ⟨Except.error "conn refused"⟩ = 0 ∧
    hostTask ⟨Except.error "conn refused"⟩ demoHost ["a", "b", "c"] =
      (demoHost, Except.error (RunError.SshConnectionError "conn refused")) ∧
    closeAttempts ⟨Except.ok okOracle⟩ = 1 ∧
    closeAttempts ⟨Except.ok closeFailOracle⟩ = 1 ∧
    (hostTask ⟨Except.ok okOracle⟩ demoHost ["a", "b", "c"]).2 =
      Except.ok (runCommands okOracle 0 ["a", "b", "c"]) ∧
    (hostTask ⟨Except.ok closeFailOracle⟩ demoHost ["a", "b", "c"]).2 =
      Except.ok (runCommands closeFailOracle 0 ["a", "b", "c"] ++
        [Except.error (RunError.SshCloseError "disconnected")]) ∧
    responseIndex (Except.error (RunError.SshCloseError "disconnected")) = none ∧
    ∃ l, (hostTask ⟨Except.ok closeFailOracle⟩ demoHost ["a", "b", "c"]).2 =
        Except.ok l ∧ l.length = 4 ∧
      l.getLast? = some (Except.error (RunError.SshCloseError "disconnected")) := by
  have h := close_always_attempted_once demoHost ["a", "b", "c"] okOracle closeFailOracle
    "conn refused" "disconnected" rfl rfl
  exact ⟨h.1, h.2.1, h.2.2.1, h.2.2.2.1, h.2.2.2.2.1, h.2.2.2.2.2.1, h.2.2.2.2.2.2.1,
    h.2.2.2.2.2.2.2 rfl (by decide)⟩

/-! ## Theorems: collection loop -/

theorem collect_all_ok :
    ∀ joins : List (JoinResult HostTaskOutput),
      (∀ msg, JoinResult.joinFailure msg ∉ joins) →
      ∃ ret, collect joins = Except.ok ret ∧ ret.length = joins.length := by
  intro joins
  induction joins with
  | nil => intro _; exact ⟨[], rfl, rfl⟩
  | cons j rest ih =>
    intro hnp
    have hrest : ∀ msg, JoinResult.joinFailure msg ∉ rest := by
      intro msg hm
      exact hnp msg (List.mem_cons_of_mem _ hm)
    obtain ⟨ret, hret, hlen⟩ := ih hrest
    cases j with
    | joinFailure msg => exact absurd (List.mem_cons_self _ _) (hnp msg)
    | ok v =>
      obtain ⟨rh, res⟩ := v
      cases res with
      | ok rs =>
        exact ⟨⟨rh, sortResponses rs⟩ :: ret, by simp [collect, hret], by simp [hlen]⟩
      | error e =>
        exact ⟨⟨rh, [Except.error e]⟩ :: ret, by simp [collect, hret], by simp [hlen]⟩

theorem no_join_failures_of_perm
    (hosts : List RemoteHost) (commands : List String)
    (behaviors : RemoteHost → HostBehavior) (joins : List (JoinResult HostTaskOutput))
    (hperm : joins.Perm
      (hosts.map (fun h => JoinResult.ok (hostTask (behaviors h) h commands)))) :
    ∀ msg, JoinResult.joinFailure msg ∉ joins := by
  intro msg hm
  have h1 := hperm.mem_iff.mp hm
  rw [List.mem_map] at h1
  obtain ⟨h, -, heq⟩ := h1
  exact JoinResult.noConfusion heq

/-- Claim C5: whatever the per-host transport behaviour and whatever order
the spawned tasks complete in, the collection loop returns exactly one
`Responses` record per requested host. -/
theorem one_outcome_per_host
    (hosts : List RemoteHost) (commands : List String)
    (behaviors : RemoteHost → HostBehavior) (joins : List (JoinResult HostTaskOutput))
    (hperm : joins.Perm
      (hosts.map (fun h => JoinResult.ok (hostTask (behaviors h) h commands)))) :
    ∃ ret, collect joins = Except.ok ret ∧ ret.length = hosts.length := by
  obtain ⟨ret, hret, hlen⟩ :=
    collect_all_ok joins (no_join_failures_of_perm hosts commands behaviors joins hperm)
  exact ⟨ret, hret, by rw [hlen, hperm.length_eq, List.length_map]⟩

theorem one_outcome_per_host_witness :
    ∃ ret, collect ([demoHost].map
        (fun h => JoinResult.ok (hostTask ⟨Except.error "unreachable"⟩ h ["a"]))) =
      Except.ok ret ∧ ret.length = [demoHost].length :=
  one_outcome_per_host [demoHost] ["a"] (fun _ => ⟨Except.error "unreachable"⟩) _
    (List.Perm.refl _)

/-- Claim C1 as stated is false: a failed join is not confined to its host's
slot.  With two hosts, the first returning normally and the second's join
failing, `run`'s collection loop returns `Err(GeneralError)` for the whole
invocation and no `HostOutcome` at all — not an outcome for every other
host. -/
theorem join_failure_aborts_whole_run :
    collect [JoinResult.ok (demoHost, Except.ok []),
        JoinResult.joinFailure "task panicked"] =
      Except.error (RunError.GeneralError "task panicked") ∧
    (collect [JoinResult.ok (demoHost, Except.ok []),
        JoinResult.joinFailure "task panicked"]).isOk = false :=
  ⟨rfl, rfl⟩

/-- Claim C1, amended: an unrecoverable fault in a unit (a failed join) is
caught and turned into a `GeneralError`, but that error becomes the result of
the entire invocation — the collection loop returns `Err(GeneralError)`
instead of a sequence of host outcomes, discarding the sibling hosts'
results. -/
theorem join_failure_general_error :
    ∀ (joins : List (JoinResult HostTaskOutput)) (msg : String),
      JoinResult.joinFailure msg ∈ joins →
      ∃ m, collect joins = Except.error (RunError.GeneralError m) := by
  intro joins
  induction joins with
  | nil => intro msg hmem; simp at hmem
  | cons j rest ih =>
    intro msg hmem
    rcases List.mem_cons.mp hmem with h0 | hm
    · refine ⟨msg, ?_⟩
      rw [← h0]
      rfl
    · obtain ⟨m, hm'⟩ := ih msg hm
      cases j with
      | joinFailure m2 => exact ⟨m2, rfl⟩
      | ok v =>
        obtain ⟨rh, res⟩ := v
        cases res with
        | ok rs => exact ⟨m, by simp [collect, hm']⟩
        | error e => exact ⟨m, by simp [collect, hm']⟩

theorem join_failure_general_error_witness :
    ∃ m, collect [JoinResult.joinFailure "worker panicked"] =
      Except.error (RunError.GeneralError m) :=
  join_failure_general_error [JoinResult.joinFailure "worker panicked"] "worker panicked"
    (List.mem_singleton.mpr rfl)

/-! ## Theorems: ordering of the aggregated output -/

theorem respLe_of_index_le (a b : RunResult Response) (i j : Nat)
    (ha : responseIndex a = some i) (hb : responseIndex b = some j) (hij : i ≤ j) :
    respLe a b := by
  unfold respLe respCmp
  rw [ha, hb]
  intro hgt
  rw [Nat.compare_eq_gt] at hgt
  omega

theorem respLe_of_right_none (a b : RunResult Response)
    (hb : responseIndex b = none) : respLe a b := by
  unfold respLe respCmp
  rw [hb]
  rcases responseIndex a with _ | i <;> simp

theorem runCommands_pairwise (o : SessionOracle) (cmds : List String) (s : Nat) :
    (runCommands o s cmds).Pairwise respLe := by
  rw [List.pairwise_iff_getElem]
  intro i j hi hj hij
  have hig := runCommands_getElem_index o cmds s i _ (List.getElem?_eq_getElem hi)
  have hjg := runCommands_getElem_index o cmds s j _ (List.getElem?_eq_getElem hj)
  exact respLe_of_index_le _ _ _ _ hig hjg (by omega)

theorem hostResponses_pairwise (o : SessionOracle) (cmds : List String) (e : String) :
    (runCommands o 0 cmds ++
      [Except.error (RunError.SshCloseError e)]).Pairwise respLe := by
  rw [List.pairwise_append]
  refine ⟨runCommands_pairwise o cmds 0, List.pairwise_singleton _ _, ?_⟩
  intro a ha b hb
  rw [List.mem_singleton] at hb
  subst hb
  exact respLe_of_right_none a _ rfl

theorem hostTask_ok_shape (b : HostBehavior) (rh : RemoteHost) (cmds : List String)
    (rs : List (RunResult Response)) (h : (hostTask b rh cmds).2 = Except.ok rs) :
    ∃ o, b.connectResult = Except.ok o ∧
      (rs = runCommands o 0 cmds ∨
       ∃ e, rs = runCommands o 0 cmds ++ [Except.error (RunError.SshCloseError e)]) := by
  rcases hb : b.connectResult with e | o
  · simp [hostTask, hb] at h
  · rcases hcl : o.closeResult with ec | u
    · simp only [hostTask, hb, hcl] at h
      injection h with h
      exact ⟨o, rfl, Or.inr ⟨ec, h.symm⟩⟩
    · simp only [hostTask, hb, hcl] at h
      injection h with h
      exact ⟨o, rfl, Or.inl h.symm⟩

theorem hostTask_error_shape (b : HostBehavior) (rh : RemoteHost) (cmds : List String)
    (e : RunError) (h : (hostTask b rh cmds).2 = Except.error e) :
    ∃ msg, e = RunError.SshConnectionError msg := by
  rcases hb : b.connectResult with ec | o
  · simp only [hostTask, hb] at h
    injection h with h
    exact ⟨ec, h.symm⟩
  · rcases hcl : o.closeResult with ec | u <;> simp [hostTask, hb, hcl] at h

theorem collect_entry_shapes :
    ∀ (joins : List (JoinResult HostTaskOutput)) (ret : List Responses),
      collect joins = Except.ok ret → ∀ r ∈ ret,
      (∃ rh rs, JoinResult.ok (rh, Except.ok rs) ∈ joins ∧
        r = ⟨rh, sortResponses rs⟩) ∨
      (∃ rh e, JoinResult.ok (rh, Except.error e) ∈ joins ∧
        r = ⟨rh, [Except.error e]⟩) := by
  intro joins
  induction joins with
  | nil =>
    intro ret h r hr
    simp only [collect] at h
    injection h with h
    subst h
    simp at hr
  | cons j rest ih =>
    intro ret h r hr
    cases j with
    | joinFailure msg => simp [collect] at h
    | ok v =>
      obtain ⟨rh, res⟩ := v
      cases res with
      | ok rs =>
        rcases hrest : collect rest with e | ret'
        · simp [collect, hrest] at h
        · simp only [collect, hrest] at h
          injection h with h
          subst h
          rcases List.mem_cons.mp hr with hr0 | hrm
          · exact Or.inl ⟨rh, rs, List.mem_cons_self _ _, hr0⟩
          · rcases ih ret' hrest r hrm with ⟨rh', rs', hm, he⟩ | ⟨rh', e', hm, he⟩
            · exact Or.inl ⟨rh', rs', List.mem_cons_of_mem _ hm, he⟩
            · exact Or.inr ⟨rh', e', List.mem_cons_of_mem _ hm, he⟩
      | error e =>
        rcases hrest : collect rest with e2 | ret'
        · simp [collect, hrest] at h
        · simp only [collect, hrest] at h
          injection h with h
          subst h
          rcases List.mem_cons.mp hr with hr0 | hrm
          · exact Or.inr ⟨rh, e, List.mem_cons_self _ _, hr0⟩
          · rcases ih ret' hrest r hrm with ⟨rh', rs', hm, he⟩ | ⟨rh', e', hm, he⟩
            · exact Or.inl ⟨rh', rs', List.mem_cons_of_mem _ hm, he⟩
            · exact Or.inr ⟨rh', e', List.mem_cons_of_mem _ hm, he⟩

/-- Claim C6: whatever order the spawned tasks complete in, the sequence
`main` hands the renderer is sorted ascending by hostname, and within each
host the command indices of the outcomes are strictly ascending (outcomes
without a command index — connection and close errors — excepted). -/
theorem aggregated_output_ordering
    (hosts : List RemoteHost) (commands : List String)
    (behaviors : RemoteHost → HostBehavior) (joins : List (JoinResult HostTaskOutput))
    (hperm : joins.Perm
      (hosts.map (fun h => JoinResult.ok (hostTask (behaviors h) h commands)))) :
    ∃ out, mainOutput joins = Except.ok out ∧
      List.Sorted hostLe out ∧
      ∀ r ∈ out, List.Sorted (· < ·) (r.responses.filterMap responseIndex) := by
  obtain ⟨ret, hret, -⟩ :=
    collect_all_ok joins (no_join_failures_of_perm hosts commands behaviors joins hperm)
  refine ⟨aggregate ret, by simp [mainOutput, hret], ?_, ?_⟩
  · exact List.sorted_insertionSort hostLe ret
  · intro r hr
    have hr' : r ∈ ret := (List.perm_insertionSort hostLe ret).mem_iff.mp hr
    rcases collect_entry_shapes joins ret hret r hr'
      with ⟨rh, rs, hm, he⟩ | ⟨rh, e, hm, he⟩
    · have hm' := hperm.mem_iff.mp hm
      rw [List.mem_map] at hm'
      obtain ⟨h, -, heq⟩ := hm'
      injection heq with heq
      have h2 : (hostTask (behaviors h) h commands).2 = Except.ok rs := by rw [heq]
      obtain ⟨o, -, hshape⟩ := hostTask_ok_shape _ _ _ _ h2
      subst he
      rcases hshape with hrs | ⟨ec, hrs⟩
      · subst hrs
        have heqs : sortResponses (runCommands o 0 commands) = runCommands o 0 commands :=
          List.Sorted.insertionSort_eq (runCommands_pairwise o commands 0)
        show List.Sorted (· < ·)
          ((sortResponses (runCommands o 0 commands)).filterMap responseIndex)
        rw [heqs, runCommands_filterMap_index]
        exact sorted_lt_range' _ _
      · subst hrs
        have heqs : sortResponses (runCommands o 0 commands ++
            [Except.error (RunError.SshCloseError ec)]) =
            runCommands o 0 commands ++ [Except.error (RunError.SshCloseError ec)] :=
          List.Sorted.insertionSort_eq (hostResponses_pairwise o commands ec)
        show List.Sorted (· < ·) ((sortResponses (runCommands o 0 commands ++
          [Except.error (RunError.SshCloseError ec)])).filterMap responseIndex)
        rw [heqs, List.filterMap_append, runCommands_filterMap_index]
        simp only [List.filterMap_cons, List.filterMap_nil, responseIndex, List.append_nil]
        exact sorted_lt_range' _ _
    · have hm' := hperm.mem_iff.mp hm
      rw [List.mem_map] at hm'
      obtain ⟨h, -, heq⟩ := hm'
      injection heq with heq
      have h2 : (hostTask (behaviors h) h commands).2 = Except.error e := by rw [heq]
      obtain ⟨msg, hmsg⟩ := hostTask_error_shape _ _ _ _ h2
      subst he hmsg
      simp [responseIndex]

theorem aggregated_output_ordering_witness :
    ∃ out, mainOutput ([demoHost].map
        (fun h => JoinResult.ok (hostTask ⟨Except.ok closeFailOracle⟩ h ["a", "b"]))) =
      Except.ok out ∧
      List.Sorted hostLe out ∧
      ∀ r ∈ out, List.Sorted (· < ·) (r.responses.filterMap responseIndex) :=
  aggregated_output_ordering [demoHost] ["a", "b"]
    (fun _ => ⟨Except.ok closeFailOracle⟩) _ (List.Perm.refl _)

/-! ## Theorems: bounded concurrency -/

/-- Claim C7: in every state the buffered stream can reach while draining any
host list, at most `bufferCap = 10` units are in flight, and whenever a slot
is free (in particular right after a unit completes) the next queued host can
immediately start. -/
theorem scheduler_bounded_concurrency {α : Type} (hosts : List α) (s : BufferState α)
    (h : BufferReachable hosts s) :
    s.active.length ≤ bufferCap ∧
    ∀ x rest, s.pending = x :: rest → s.active.length < bufferCap →
      BufferStep s ⟨rest, x :: s.active, s.finished⟩ := by
  constructor
  · induction h with
    | refl => simp
    | tail hsteps step ih =>
      cases step with
      | start x rest active finished hlt => simpa using hlt
      | finish pending a₁ x a₂ finished =>
        simp only [List.length_append, List.length_cons] at ih ⊢
        omega
  · intro x rest hp hlt
    obtain ⟨p, a, f⟩ := s
    dsimp only at hp hlt ⊢
    subst hp
    exact BufferStep.start x rest a f hlt

theorem scheduler_bounded_concurrency_witness :
    BufferStep (⟨[demoHost], [], []⟩ : BufferState RemoteHost) ⟨[], [demoHost], []⟩ ∧
    (⟨[demoHost], [], []⟩ : BufferState RemoteHost).active.length ≤ bufferCap := by
  have h := scheduler_bounded_concurrency [demoHost] ⟨[demoHost], [], []⟩
    Relation.ReflTransGen.refl
  exact ⟨h.2 demoHost [] rfl (by decide), h.1⟩
